import Mathlib

/-!
Verification development for a caching DNS-over-TLS forwarder.

The development shallowly embeds the forwarding and caching engine:

* the response cache of the cache package (ARC-backed, keyed by the string
  form of the first question record, TTL-based expiry, speculative stale
  serving);
* the specialized LRU/MFA bounded cache used by the proxy package;
* the retry and fan-out logic of the resolver in the proxy package;
* the coarse clock and the upstream TLS connector.

Wall-clock instants are modelled as natural numbers of seconds (the code
works at second granularity for TTL arithmetic); DNS messages keep exactly
the fields the engine reads or writes.
-/

namespace DoTForwarder

/-- An answer resource record; the engine only ever reads or writes the TTL
of the header, so the record is reduced to that field. -/
structure RR where
  ttl : Nat
deriving DecidableEq

/-- A question record with the fields entering the canonical string form. -/
structure Question where
  qname : String
  qtype : Nat
  qclass : Nat
deriving DecidableEq

/-- A DNS message, reduced to the fields the engine touches: transaction
identifier, question and answer sections, the truncated flag and the
compression request. -/
structure Msg where
  id : Nat
  question : List Question
  answer : List RR
  truncated : Bool
  compress : Bool
deriving DecidableEq

/-- Canonical string form of a question record, as produced by the DNS
library and used as the cache fingerprint.  The exact format is the external
library contract; only its value on equal questions matters here. -/
def questionString (q : Question) : String :=
  q.qname ++ "\t" ++ toString q.qclass ++ "\t" ++ toString q.qtype

/-- The fingerprint function key of the cache package reads the first
question record unconditionally; an empty question section is an
out-of-range access in the code, modelled by none. -/
def keyOf (m : Msg) : Option String :=
  m.question.head?.map questionString

/-- A cache entry of the cache package: a canonicalized copy of the response
and an absolute expiration instant (unix seconds). -/
structure CacheValue where
  m : Msg
  exp : Nat
deriving DecidableEq

/-- The external ARC store the cache package delegates to, modelled through
its associative contract: get finds the most recent put for a key.  The
boundedness of the ARC library itself is not part of any claim about the
cache package (the bounded cache of the proxy is modelled separately). -/
abbrev Arc := List (String × CacheValue)

/-- Lookup in the ARC store model. -/
def arcGet (c : Arc) (k : String) : Option CacheValue :=
  (c.find? (fun p => p.1 == k)).map Prod.snd

/-- Insertion in the ARC store model: the new binding shadows any former
binding of the same key. -/
def arcPut (c : Arc) (k : String) (v : CacheValue) : Arc :=
  (k, v) :: c.filter (fun p => p.1 != k)

/-- Upper bound on cached TTL: 24 hours in seconds (maxTTL of the cache
package). -/
def maxTTL : Nat := 86400

/-- Body of Cache.Get of the cache package once the fingerprint k has been
computed. mk is the incoming query, now the current instant in unix
seconds.  On a hit the stored message is copied, its transaction identifier
rewritten to the identifier of mk; if the entry has expired every answer TTL
is forced to 60 and the fresh flag is false, otherwise every answer TTL is
rewritten to the seconds remaining until expiration and the fresh flag is
true. -/
def cacheGetK (c : Arc) (k : String) (mk : Msg) (now : Nat) : Option Msg × Bool :=
  match arcGet c k with
  | none => (none, false)
  | some v =>
    let mv := { v.m with id := mk.id }
    if v.exp < now then
      (some { mv with answer := mv.answer.map (fun a => { a with ttl := 60 }) }, false)
    else
      (some { mv with answer := mv.answer.map (fun a => { a with ttl := v.exp - now }) }, true)

/-- Body of Cache.Put of the cache package once the fingerprint k has been
computed.  A response with no answer records is not cached.  Otherwise the
expiration is the fold of the Go loop: starting from now plus maxTTL, take
the earlier of the accumulator and now plus the TTL of each answer.  The
stored message is a copy with the truncated bit cleared and compression
enabled. -/
def cachePutK (c : Arc) (k : String) (v : Msg) (now : Nat) : Arc :=
  if v.answer = [] then c
  else
    let minExp := v.answer.foldl (fun acc a => min acc (now + a.ttl)) (now + maxTTL)
    let cm : Msg := { v with truncated := false, compress := true }
    arcPut c k { m := cm, exp := minExp }

/-- Cache.Get of the cache package: computes the fingerprint of the query
(none when the question section is empty, where the code would panic) and
delegates to the keyed body. -/
def cacheGet (c : Arc) (mk : Msg) (now : Nat) : Option (Option Msg × Bool) :=
  (keyOf mk).map (fun k => cacheGetK c k mk now)

/-- Cache.Put of the cache package: computes the fingerprint of the query
message q (none when the question section is empty, where the code would
panic) and delegates to the keyed body storing the response v. -/
def cachePut (c : Arc) (q v : Msg) (now : Nat) : Option Arc :=
  (keyOf q).map (fun k => cachePutK c k v now)

/-- Minimum TTL across a nonempty answer section (zero for an empty one);
used only to state properties, the code folds the expiration directly. -/
def ansMinTTL : List RR → Nat
  | [] => 0
  | a :: rest => rest.foldl (fun acc r => min acc r.ttl) a.ttl

/-- Concrete query with one question record, used as a test input. -/
def qEx : Msg := ⟨3, [⟨"example.com.", 1, 1⟩], [], false, false⟩

/-- Fingerprint of the concrete query qEx. -/
def kEx : String := "example.com.\t1\t1"

/-- Concrete response with a single answer of TTL 300 seconds. -/
def vEx300 : Msg := ⟨9, [], [⟨300⟩], false, false⟩

/-- Concrete response with a single answer of TTL 5 seconds. -/
def vEx5 : Msg := ⟨9, [], [⟨5⟩], false, false⟩

/-- Concrete response with a single answer of TTL one second above 24 hours. -/
def vBig : Msg := ⟨9, [], [⟨86401⟩], false, false⟩

/-- Concrete response with no answer records. -/
def vEmpty : Msg := ⟨11, [], [], false, false⟩

theorem arcGet_arcPut_self (c : Arc) (k : String) (v : CacheValue) :
    arcGet (arcPut c k v) k = some v := by
  simp [arcGet, arcPut, List.find?_cons_of_pos]

theorem foldl_min_add_pos (now init : Nat) (l : List RR) (hinit : now < init)
    (h : ∀ a ∈ l, 0 < a.ttl) :
    now < l.foldl (fun acc a => min acc (now + a.ttl)) init := by
  induction l generalizing init with
  | nil => exact hinit
  | cons a rest ih =>
    have ha : 0 < a.ttl := h a (List.mem_cons_self a rest)
    exact ih (min init (now + a.ttl)) (by omega) (fun b hb => h b (List.mem_cons_of_mem a hb))

theorem foldl_min_add_factor (t0 : Nat) (l : List RR) (i : Nat) :
    l.foldl (fun acc a => min acc (t0 + a.ttl)) (t0 + i) =
      t0 + l.foldl (fun acc a => min acc a.ttl) i := by
  induction l generalizing i with
  | nil => rfl
  | cons a rest ih =>
    have hmin : min (t0 + i) (t0 + a.ttl) = t0 + min i a.ttl := by omega
    simp only [List.foldl_cons, hmin, ih]

theorem foldl_min_ttl_init (l : List RR) (i j : Nat) :
    l.foldl (fun acc a => min acc a.ttl) (min i j) =
      min i (l.foldl (fun acc a => min acc a.ttl) j) := by
  induction l generalizing j with
  | nil => rfl
  | cons a rest ih =>
    simp only [List.foldl_cons, Nat.min_assoc, ih]

theorem foldl_min_ttl_eq (l : List RR) (i : Nat) (h : l ≠ []) :
    l.foldl (fun acc a => min acc a.ttl) i = min i (ansMinTTL l) := by
  cases l with
  | nil => exact absurd rfl h
  | cons a rest =>
    simpa [ansMinTTL] using foldl_min_ttl_init rest i a.ttl

theorem foldl_min_ttl_le_init (l : List RR) (i : Nat) :
    l.foldl (fun acc a => min acc a.ttl) i ≤ i := by
  induction l generalizing i with
  | nil => exact Nat.le_refl i
  | cons a rest ih =>
    exact le_trans (ih (min i a.ttl)) (Nat.min_le_left i a.ttl)

theorem foldl_min_ttl_le_mem (l : List RR) (i : Nat) (b : RR) (hb : b ∈ l) :
    l.foldl (fun acc a => min acc a.ttl) i ≤ b.ttl := by
  induction l generalizing i with
  | nil => cases hb
  | cons a rest ih =>
    rcases List.mem_cons.mp hb with h | h
    · subst h
      exact le_trans (foldl_min_ttl_le_init rest (min i b.ttl)) (Nat.min_le_right i b.ttl)
    · exact ih (min i a.ttl) h

/-- C1: for every query message q with at least one answer record in the
response v and minimum answer TTL strictly positive, a cache put of (q, v)
followed immediately by a get of q returns a response with the fresh flag
true, and the transaction identifier of the returned response equals the
identifier of q. -/
theorem cache_put_get_fresh_id (c : Arc) (q v : Msg) (k : String) (now : Nat)
    (hk : keyOf q = some k) (hans : v.answer ≠ [])
    (httl : ∀ a ∈ v.answer, 0 < a.ttl) :
    ∃ r : Msg, cachePut c q v now = some (cachePutK c k v now) ∧
      cacheGet (cachePutK c k v now) q now = some (some r, true) ∧ r.id = q.id := by
  have hexp : now < v.answer.foldl (fun acc a => min acc (now + a.ttl)) (now + maxTTL) :=
    foldl_min_add_pos now (now + maxTTL) v.answer (by simp [maxTTL]) httl
  have hget : cacheGet (cachePutK c k v now) q now = some (some
      { id := q.id, question := v.question,
        answer := v.answer.map (fun a =>
          { a with ttl := v.answer.foldl (fun acc b => min acc (now + b.ttl)) (now + maxTTL) - now }),
        truncated := false, compress := true }, true) := by
    simp only [cacheGet, hk, Option.map_some']
    rw [cachePutK, if_neg hans]
    simp only [cacheGetK, arcGet_arcPut_self]
    rw [if_neg (by omega)]
  exact ⟨_, by simp [cachePut, hk], hget, rfl⟩

/-- Witness for C1 at a concrete input: empty cache, a one-question query
and a one-answer response with TTL 300, put and get both at instant 0. -/
theorem cache_put_get_fresh_id_witness :
    ∃ r : Msg, cachePut [] qEx vEx300 0 = some (cachePutK [] kEx vEx300 0) ∧
      cacheGet (cachePutK [] kEx vEx300 0) qEx 0 = some (some r, true) ∧ r.id = qEx.id :=
  cache_put_get_fresh_id [] qEx vEx300 kEx 0 (by decide) (by decide) (by decide)

theorem ansMinTTL_le_mem (l : List RR) (b : RR) (hb : b ∈ l) : ansMinTTL l ≤ b.ttl := by
  cases l with
  | nil => cases hb
  | cons a rest =>
    rcases List.mem_cons.mp hb with h | h
    · subst h
      exact foldl_min_ttl_le_init rest b.ttl
    · exact foldl_min_ttl_le_mem rest a.ttl b h

/-- C3 counterexample: a put whose single answer TTL is one second above 24
hours stores an expiration equal to insertion time plus 24 hours, not
insertion time plus the minimum answer TTL (86401). -/
theorem put_exp_not_plus_min_ttl :
    arcGet (cachePutK [] kEx vBig 0) kEx = some ⟨⟨9, [], [⟨86401⟩], false, true⟩, 86400⟩ ∧
    (86400 : Nat) ≠ 0 + ansMinTTL vBig.answer :=
  ⟨by decide, by decide⟩

/-- C3 amended: the stored expiration equals insertion time plus the minimum
of the minimum answer TTL and 24 hours, hence never exceeds insertion time
plus 24 hours; the stored message is the canonicalized copy (truncated bit
cleared, compression enabled). -/
theorem put_exp_eq_min_capped (c : Arc) (k : String) (v : Msg) (t0 : Nat)
    (hans : v.answer ≠ []) :
    arcGet (cachePutK c k v t0) k =
      some ⟨{ v with truncated := false, compress := true },
            t0 + min maxTTL (ansMinTTL v.answer)⟩ ∧
    t0 + min maxTTL (ansMinTTL v.answer) ≤ t0 + maxTTL := by
  have hfold : v.answer.foldl (fun acc a => min acc (t0 + a.ttl)) (t0 + maxTTL) =
      t0 + min maxTTL (ansMinTTL v.answer) := by
    rw [foldl_min_add_factor, foldl_min_ttl_eq _ _ hans]
  constructor
  · simp [cachePutK, hans, arcGet_arcPut_self, hfold]
  · omega

/-- Witness for the amended C3 at a concrete input: the response with a
single answer TTL one second above 24 hours, inserted at instant 0. -/
theorem put_exp_eq_min_capped_witness :
    arcGet (cachePutK [] kEx vBig 0) kEx =
      some ⟨{ vBig with truncated := false, compress := true },
            0 + min maxTTL (ansMinTTL vBig.answer)⟩ ∧
    0 + min maxTTL (ansMinTTL vBig.answer) ≤ 0 + maxTTL :=
  put_exp_eq_min_capped [] kEx vBig 0 (by decide)

/-- C4 counterexample: with a single answer of TTL 5 inserted at instant 0, a
get at instant 5 is still reported fresh (flag true) yet the rewritten answer
TTL is 0, which is not strictly positive. -/
theorem fresh_hit_ttl_zero_at_expiry :
    cacheGetK (cachePutK [] kEx vEx5 0) kEx qEx 5 =
      (some ⟨3, [], [⟨0⟩], false, true⟩, true) ∧
    ¬ (∀ a ∈ ([⟨0⟩] : List RR), 0 < a.ttl) :=
  ⟨by decide, by decide⟩

/-- C4 amended: on a hit at or before the expiration instant the fresh flag
is true and every returned answer TTL equals the seconds remaining to
expiration, is at most every original answer TTL, and is strictly positive
whenever the get happens strictly before expiration (it is zero exactly at
the expiration instant); on a hit after expiration the flag is false and
every returned answer TTL equals 60. -/
theorem hit_ttl_values (c : Arc) (q v : Msg) (k : String) (t0 t1 : Nat)
    (hk : keyOf q = some k) (hans : v.answer ≠ []) (h01 : t0 ≤ t1) :
    (t1 ≤ t0 + min maxTTL (ansMinTTL v.answer) →
      ∃ r : Msg, cacheGet (cachePutK c k v t0) q t1 = some (some r, true) ∧
        (∀ a ∈ r.answer, a.ttl = t0 + min maxTTL (ansMinTTL v.answer) - t1) ∧
        (∀ a ∈ r.answer, ∀ b ∈ v.answer, a.ttl ≤ b.ttl) ∧
        (t1 < t0 + min maxTTL (ansMinTTL v.answer) → ∀ a ∈ r.answer, 0 < a.ttl)) ∧
    (t0 + min maxTTL (ansMinTTL v.answer) < t1 →
      ∃ r : Msg, cacheGet (cachePutK c k v t0) q t1 = some (some r, false) ∧
        ∀ a ∈ r.answer, a.ttl = 60) := by
  have hfold : v.answer.foldl (fun acc a => min acc (t0 + a.ttl)) (t0 + maxTTL) =
      t0 + min maxTTL (ansMinTTL v.answer) := by
    rw [foldl_min_add_factor, foldl_min_ttl_eq _ _ hans]
  constructor
  · intro hle
    have hget : cacheGet (cachePutK c k v t0) q t1 = some (some
        { id := q.id, question := v.question,
          answer := v.answer.map (fun a =>
            { a with ttl := t0 + min maxTTL (ansMinTTL v.answer) - t1 }),
          truncated := false, compress := true }, true) := by
      simp only [cacheGet, hk, Option.map_some']
      rw [cachePutK, if_neg hans]
      simp only [cacheGetK, arcGet_arcPut_self, hfold]
      rw [if_neg (by omega)]
    refine ⟨_, hget, ?_, ?_, ?_⟩
    · intro a ha
      rcases List.mem_map.mp ha with ⟨b, _, hb⟩
      simp [← hb]
    · intro a ha b hb
      rcases List.mem_map.mp ha with ⟨a0, _, ha0⟩
      have hmin : ansMinTTL v.answer ≤ b.ttl := ansMinTTL_le_mem v.answer b hb
      simp only [← ha0]
      omega
    · intro hlt a ha
      rcases List.mem_map.mp ha with ⟨a0, _, ha0⟩
      simp only [← ha0]
      omega
  · intro hgt
    have hget : cacheGet (cachePutK c k v t0) q t1 = some (some
        { id := q.id, question := v.question,
          answer := v.answer.map (fun a => { a with ttl := 60 }),
          truncated := false, compress := true }, false) := by
      simp only [cacheGet, hk, Option.map_some']
      rw [cachePutK, if_neg hans]
      simp only [cacheGetK, arcGet_arcPut_self, hfold]
      rw [if_pos (by omega)]
    refine ⟨_, hget, ?_⟩
    intro a ha
    rcases List.mem_map.mp ha with ⟨a0, _, ha0⟩
    simp [← ha0]

/-- Witness for the amended C4 at a concrete input: a response of TTL 300
inserted at instant 0, with the get at instant 100. -/
theorem hit_ttl_values_witness :
    (100 ≤ 0 + min maxTTL (ansMinTTL vEx300.answer) →
      ∃ r : Msg, cacheGet (cachePutK [] kEx vEx300 0) qEx 100 = some (some r, true) ∧
        (∀ a ∈ r.answer, a.ttl = 0 + min maxTTL (ansMinTTL vEx300.answer) - 100) ∧
        (∀ a ∈ r.answer, ∀ b ∈ vEx300.answer, a.ttl ≤ b.ttl) ∧
        (100 < 0 + min maxTTL (ansMinTTL vEx300.answer) → ∀ a ∈ r.answer, 0 < a.ttl)) ∧
    (0 + min maxTTL (ansMinTTL vEx300.answer) < 100 →
      ∃ r : Msg, cacheGet (cachePutK [] kEx vEx300 0) qEx 100 = some (some r, false) ∧
        ∀ a ∈ r.answer, a.ttl = 60) :=
  hit_ttl_values [] qEx vEx300 kEx 0 100 (by decide) (by decide) (by decide)

/-- C5 counterexample: when the fingerprint of q is already cached, a put of
a response with no answers leaves the cache unchanged but the immediately
following get is a hit, not a miss. -/
theorem empty_put_then_get_can_hit :
    cachePut (cachePutK [] kEx vEx300 0) qEx vEmpty 0 = some (cachePutK [] kEx vEx300 0) ∧
    cacheGet (cachePutK [] kEx vEx300 0) qEx 0 ≠ some (none, false) :=
  ⟨by decide, by decide⟩

/-- C5 amended: a put of a response with no answer records leaves the cache
unchanged, and when the cache holds no entry for the fingerprint of q the
immediately following get of q returns a miss. -/
theorem empty_put_noop_get_miss_if_absent (c : Arc) (q v : Msg) (k : String) (t : Nat)
    (hk : keyOf q = some k) (hempty : v.answer = []) (habsent : arcGet c k = none) :
    cachePut c q v t = some c ∧ cacheGet c q t = some (none, false) := by
  constructor
  · simp [cachePut, hk, cachePutK, hempty]
  · simp [cacheGet, hk, cacheGetK, habsent]

/-- Witness for the amended C5 at a concrete input: the empty cache, the
one-question query and the response with no answers, at instant 0. -/
theorem empty_put_noop_get_miss_if_absent_witness :
    cachePut [] qEx vEmpty 0 = some [] ∧ cacheGet [] qEx 0 = some (none, false) :=
  empty_put_noop_get_miss_if_absent [] qEx vEmpty kEx 0 (by decide) (by decide) (by decide)

/-- C10: the fingerprint, and with it get and put, is well defined exactly on
messages with at least one question record; on an empty question section the
computation is the out-of-range access of the code, modelled as none. -/
theorem key_defined_iff_question_nonempty (c : Arc) (m v : Msg) (t : Nat) :
    (keyOf m = none ↔ m.question = []) ∧
    (cacheGet c m t = none ↔ m.question = []) ∧
    (cachePut c m v t = none ↔ m.question = []) := by
  have h : keyOf m = none ↔ m.question = [] := by
    cases hq : m.question with
    | nil => simp [keyOf, hq]
    | cons a rest => simp [keyOf, hq]
  refine ⟨h, ?_, ?_⟩ <;> simp [cacheGet, cachePut, Option.map_eq_none', h]

/-! The specialized bounded cache of the proxy: an LRU store and an MFA
store sharing the configured capacity.  The control flow of Put, the two
capacities and the timer are taken from the specialized cache source; the
underlying heap-backed store type is not among the repository files, so its
operations are modelled from the specification. -/

/-- An entry of a specialized store: key, value, access count a and last
access time t, as read from the store items by the cache control flow. -/
structure SEntry (α : Type) where
  key : String
  v : α
  a : Nat
  t : Nat

/-- Modelled from the spec: a bounded associative container with a fixed
capacity and a deterministic eviction order given by better, which compares
two entries through their access count and time (the store source file is
not in the repository; only its use by the cache is). -/
structure SStore (α : Type) where
  capacity : Nat
  better : Nat → Nat → Nat → Nat → Bool
  entries : List (SEntry α)

/-- Eviction order of the recency store: the entry with the smaller last
access time (ties by access count) is evicted first. -/
def byTime (a1 t1 a2 t2 : Nat) : Bool :=
  decide (t1 < t2 ∨ (t1 = t2 ∧ a1 < a2))

/-- Eviction order of the frequency store: the entry with the smaller access
count (ties by time) is evicted first. -/
def byAccesses (a1 t1 a2 t2 : Nat) : Bool :=
  decide (a1 < a2 ∨ (a1 = a2 ∧ t1 < t2))

/-- Modelled from the spec: the entry the store would evict next (the
minimum of the eviction order) together with the remaining entries; none on
an empty store. -/
def popMin (b : Nat → Nat → Nat → Nat → Bool) : List (SEntry α) → Option (SEntry α × List (SEntry α))
  | [] => none
  | [e] => some (e, [])
  | e :: rest =>
    match popMin b rest with
    | none => some (e, [])
    | some (m, rest') => if b e.a e.t m.a m.t then some (e, rest) else some (m, e :: rest')

/-- Modelled from the spec: update in place when the key is present,
refreshing the stored value and the access metadata; the flag reports
whether the key was found. -/
def SStore.updateS (s : SStore α) (now : Nat) (k : String) (v : α) : Bool × SStore α :=
  if s.entries.any (fun e => e.key == k) then
    (true, { s with entries := s.entries.map (fun e =>
      if e.key == k then { e with v := v, a := e.a + 1, t := now } else e) })
  else (false, s)

/-- Modelled from the spec: bounded insertion.  With room the entry is added
and no overflow is reported; at capacity the eviction-order minimum is popped
first and returned as the overflow (on a zero-capacity store the incoming
entry itself overflows and the store is unchanged). -/
def SStore.sput (s : SStore α) (now : Nat) (k : String) (v : α) (a : Nat) :
    Option (SEntry α) × SStore α :=
  if s.entries.length < s.capacity then
    (none, { s with entries := ⟨k, v, a, now⟩ :: s.entries })
  else
    match popMin s.better s.entries with
    | none => (some ⟨k, v, a, now⟩, s)
    | some (m, rest) => (some m, { s with entries := ⟨k, v, a, now⟩ :: rest })

/-- The specialized cache: the LRU and MFA stores and the builtin timer
value t (the clock callback override is not set by the proxy server, so the
builtin increment is modelled; the uint wraparound reset branch is
unreachable over Nat). -/
structure SCache (α : Type) where
  lru : SStore α
  mfa : SStore α
  t : Nat

/-- NewCache of the specialized package for a positive size: the LRU store
gets half the capacity, the MFA store the other half plus the remainder. -/
def newSCache (α : Type) (size : Nat) : SCache α :=
  { lru := { capacity := size / 2, better := byTime, entries := [] },
    mfa := { capacity := size / 2 + size % 2, better := byAccesses, entries := [] },
    t := 0 }

/-- Put of the specialized cache, following the source control flow: try an
in-place update of MFA then LRU; otherwise insert into LRU with access count
1; on LRU overflow promote the evicted entry to MFA when MFA has room, or
when the evicted entry beats the MFA eviction candidate; an entry evicted
from MFA in that last step returns to LRU when it beats the LRU eviction
candidate, with its access count reset to 1. -/
def scachePut (c : SCache α) (k : String) (v : α) : SCache α :=
  let now := c.t + 1
  if (c.mfa.updateS now k v).1 then
    { c with t := now, mfa := (c.mfa.updateS now k v).2 }
  else if (c.lru.updateS now k v).1 then
    { c with t := now, lru := (c.lru.updateS now k v).2 }
  else
    let lru2 := (c.lru.sput now k v 1).2
    match (c.lru.sput now k v 1).1 with
    | none => { c with t := now, lru := lru2 }
    | some ovf =>
      if c.mfa.entries.length < c.mfa.capacity then
        { c with t := now, lru := lru2, mfa := (c.mfa.sput now ovf.key ovf.v ovf.a).2 }
      else
        match (popMin c.mfa.better c.mfa.entries).map Prod.fst with
        | none => { c with t := now, lru := lru2 }
        | some pk =>
          if pk.a < ovf.a ∨ (pk.a = ovf.a ∧ pk.t < ovf.t) then
            { c with t := now, lru := lru2 }
          else
            let mfa2 := (c.mfa.sput now ovf.key ovf.v ovf.a).2
            match (c.mfa.sput now ovf.key ovf.v ovf.a).1 with
            | none => { c with t := now, lru := lru2, mfa := mfa2 }
            | some m2 =>
              match (popMin lru2.better lru2.entries).map Prod.fst with
              | none => { c with t := now, lru := lru2, mfa := mfa2 }
              | some pl =>
                if 0 < lru2.entries.length ∧ pl.a < m2.a then
                  { c with t := now, lru := (lru2.sput now m2.key m2.v 1).2, mfa := mfa2 }
                else
                  { c with t := now, lru := lru2, mfa := mfa2 }

/-- Len of the specialized cache: entries of both stores. -/
def SCache.len (c : SCache α) : Nat :=
  c.lru.entries.length + c.mfa.entries.length

/-- Cap of the specialized cache: the two configured capacities. -/
def SCache.cap (c : SCache α) : Nat :=
  c.lru.capacity + c.mfa.capacity

/-- A sequence of put operations applied in order. -/
def applyPuts (c : SCache α) (ops : List (String × α)) : SCache α :=
  ops.foldl (fun c p => scachePut c p.1 p.2) c

theorem popMin_eq_none_iff (b : Nat → Nat → Nat → Nat → Bool) (l : List (SEntry α)) :
    popMin b l = none ↔ l = [] := by
  cases l with
  | nil => simp [popMin]
  | cons e rest =>
    cases rest with
    | nil => simp [popMin]
    | cons x xs =>
      simp only [popMin]
      rcases h : popMin b (x :: xs) with _ | ⟨m, rest'⟩ <;> simp
      split <;> simp

theorem popMin_length (b : Nat → Nat → Nat → Nat → Bool) (l : List (SEntry α))
    (m : SEntry α) (rest : List (SEntry α)) (h : popMin b l = some (m, rest)) :
    rest.length + 1 = l.length := by
  induction l generalizing m rest with
  | nil => simp [popMin] at h
  | cons e tl ih =>
    cases tl with
    | nil =>
      simp only [popMin, Option.some.injEq, Prod.mk.injEq] at h
      obtain ⟨h1, h2⟩ := h
      subst h2
      rfl
    | cons x xs =>
      simp only [popMin] at h
      rcases h' : popMin b (x :: xs) with _ | ⟨m', rest'⟩
      · exact absurd ((popMin_eq_none_iff b (x :: xs)).mp h') (by simp)
      · simp only [h'] at h
        have hlen := ih m' rest' h'
        by_cases hb : b e.a e.t m'.a m'.t = true
        · rw [if_pos hb] at h
          simp only [Option.some.injEq, Prod.mk.injEq] at h
          obtain ⟨h1, h2⟩ := h
          subst h2
          rfl
        · rw [if_neg hb] at h
          simp only [Option.some.injEq, Prod.mk.injEq] at h
          obtain ⟨h1, h2⟩ := h
          subst h2
          simp only [List.length_cons] at hlen ⊢
          omega

theorem updateS_capacity (s : SStore α) (now : Nat) (k : String) (v : α) :
    ((s.updateS now k v).2).capacity = s.capacity := by
  unfold SStore.updateS
  split <;> rfl

theorem updateS_length (s : SStore α) (now : Nat) (k : String) (v : α) :
    ((s.updateS now k v).2).entries.length = s.entries.length := by
  unfold SStore.updateS
  split <;> simp

theorem updateS_inv (s : SStore α) (now : Nat) (k : String) (v : α)
    (h : s.entries.length ≤ s.capacity) :
    ((s.updateS now k v).2).entries.length ≤ ((s.updateS now k v).2).capacity := by
  rw [updateS_capacity, updateS_length]
  exact h

theorem sput_capacity (s : SStore α) (now : Nat) (k : String) (v : α) (a : Nat) :
    ((s.sput now k v a).2).capacity = s.capacity := by
  unfold SStore.sput
  split
  · rfl
  · split <;> rfl

theorem sput_inv (s : SStore α) (now : Nat) (k : String) (v : α) (a : Nat)
    (h : s.entries.length ≤ s.capacity) :
    ((s.sput now k v a).2).entries.length ≤ ((s.sput now k v a).2).capacity := by
  rw [sput_capacity]
  unfold SStore.sput
  split
  · simpa using by omega
  · rcases hp : popMin s.better s.entries with _ | ⟨m, rest⟩
    · simpa using h
    · have := popMin_length s.better s.entries m rest hp
      simp only
      simp only [List.length_cons]
      omega

theorem scachePut_inv (c : SCache α) (k : String) (v : α)
    (h1 : c.lru.entries.length ≤ c.lru.capacity)
    (h2 : c.mfa.entries.length ≤ c.mfa.capacity) :
    (scachePut c k v).lru.entries.length ≤ (scachePut c k v).lru.capacity ∧
    (scachePut c k v).mfa.entries.length ≤ (scachePut c k v).mfa.capacity := by
  simp only [scachePut]
  repeat' split
  all_goals refine ⟨?_, ?_⟩
  all_goals first
    | exact h1
    | exact h2
    | exact updateS_inv _ _ _ _ h1
    | exact updateS_inv _ _ _ _ h2
    | exact sput_inv _ _ _ _ _ h1
    | exact sput_inv _ _ _ _ _ h2
    | exact sput_inv _ _ _ _ _ (sput_inv _ _ _ _ _ h1)

theorem scachePut_caps (c : SCache α) (k : String) (v : α) :
    (scachePut c k v).lru.capacity = c.lru.capacity ∧
    (scachePut c k v).mfa.capacity = c.mfa.capacity := by
  simp only [scachePut]
  repeat' split
  all_goals
    exact ⟨by simp only [sput_capacity, updateS_capacity],
           by simp only [sput_capacity, updateS_capacity]⟩

/-- C2: after every sequence of put operations on a specialized cache
constructed with a given size, the number of stored entries is at most the
configured capacity, and the capacity equals the construction size.  Since
the bound holds for every sequence it holds after every intermediate
operation of a longer sequence. -/
theorem specialized_len_le_cap (α : Type) (size : Nat) (ops : List (String × α)) :
    (applyPuts (newSCache α size) ops).len ≤ (applyPuts (newSCache α size) ops).cap ∧
    (applyPuts (newSCache α size) ops).cap = size := by
  have main : ∀ (l : List (String × α)) (c : SCache α),
      c.lru.entries.length ≤ c.lru.capacity →
      c.mfa.entries.length ≤ c.mfa.capacity →
      (applyPuts c l).lru.entries.length ≤ (applyPuts c l).lru.capacity ∧
      (applyPuts c l).mfa.entries.length ≤ (applyPuts c l).mfa.capacity ∧
      (applyPuts c l).lru.capacity = c.lru.capacity ∧
      (applyPuts c l).mfa.capacity = c.mfa.capacity := by
    intro l
    induction l with
    | nil => exact fun c h1 h2 => ⟨h1, h2, rfl, rfl⟩
    | cons p rest ih =>
      intro c h1 h2
      have hinv := scachePut_inv c p.1 p.2 h1 h2
      have hcaps := scachePut_caps c p.1 p.2
      have hrest := ih (scachePut c p.1 p.2) hinv.1 hinv.2
      have hstep : applyPuts c (p :: rest) = applyPuts (scachePut c p.1 p.2) rest := rfl
      rw [hstep]
      exact ⟨hrest.1, hrest.2.1,
        by rw [hrest.2.2.1, hcaps.1], by rw [hrest.2.2.2, hcaps.2]⟩
  have h := main ops (newSCache α size) (by simp [newSCache]) (by simp [newSCache])
  constructor
  · simp only [SCache.len, SCache.cap]
    exact Nat.add_le_add h.1 h.2.1
  · simp only [SCache.cap]
    rw [h.2.2.1, h.2.2.2]
    simp only [newSCache]
    omega

/-! The resolver of the proxy server: retry loop, fan-out collection, the
coarse clock and the upstream TLS connector. -/

/-- First non-null element of a list of optional responses. -/
def firstSome : List (Option Msg) → Option Msg
  | [] => none
  | none :: rest => firstSome rest
  | some m :: _ => some m

/-- Retry loop of forwardMessageAndCacheResponse: m starts as the first
attempt; while m is null and the loop counter c is below 2 another attempt
is made.  The oracle f gives the result of the i-th forwardOnce call and
calls counts the calls made so far. -/
def fwdLoop (f : Nat → Option Msg) (m : Option Msg) (calls c : Nat) : Option Msg × Nat :=
  if h : m = none ∧ c < 2 then fwdLoop f (f calls) (calls + 1) (c + 1)
  else (m, calls)
termination_by 2 - c
decreasing_by omega

/-- The forwardMessageAndCacheResponse function of the server: one attempt
plus the retry loop; a null outcome leaves the cache state st untouched, a
non-null response r is inserted through the cache interface putc and
returned.  The cache is abstract here because the server reaches it only
through its put operation. -/
def forwardAndCache {σ : Type} (putc : σ → Msg → Msg → σ) (f : Nat → Option Msg)
    (st : σ) (q : Msg) : Option Msg × Nat × σ :=
  match fwdLoop f (f 0) 1 0 with
  | (none, calls) => (none, calls, st)
  | (some r, calls) => (some r, calls, putc st q r)

/-- Channel items a pool goroutine sends in forwardMessageAndGetResponse: on
failure the code sends nil and then, lacking an early return, also sends the
(nil) result, so a failing pool contributes two nil items; a successful pool
contributes its response once. -/
def sends (r : Option Msg) : List (Option Msg) :=
  match r with
  | none => [none, none]
  | some m => [some m]

/-- Concatenation of every pool's channel items; an arrival order is valid
when it is a permutation of this list (each pool's own items are equal, so
interleavings are exactly permutations). -/
def allSends (rs : List (Option Msg)) : List (Option Msg) :=
  rs.foldr (fun r acc => sends r ++ acc) []

/-- The receive loop of forwardMessageAndGetResponse: with one pool per
entry of rs, the loop reads exactly rs.length channel items in arrival
order arr and returns the first non-null one, or null after reading them
all. -/
def forwardOnceArrivals (rs arr : List (Option Msg)) : Option Msg :=
  firstSome (arr.take rs.length)

/-- Clock state of the server: currentTime is read by now and written by the
ticker; startTime is set when Run starts listening.  Both start as zero
values, the instant zero. -/
structure ServerClock where
  currentTime : Nat
  startTime : Nat
deriving DecidableEq

/-- Server construction leaves both clock fields at their zero values. -/
def newServerClock : ServerClock := ⟨0, 0⟩

/-- Run records the listening start instant in startTime; it never writes
currentTime, which only the ticker updates. -/
def runStart (s : ServerClock) (t0 : Nat) : ServerClock := { s with startTime := t0 }

/-- A tick of the 500 ms ticker stores the sampled instant in currentTime. -/
def tickUpdate (s : ServerClock) (t : Nat) : ServerClock := { s with currentTime := t }

/-- The now reader returns the last sampled currentTime under the lock. -/
def nowRead (s : ServerClock) : Nat := s.currentTime

/-- TLS client configuration fields the connector sets: the minimum protocol
version and the server name used for SNI and certificate verification (empty
means derive it from the dialed address). -/
structure TLSConfig where
  minVersion : Nat
  serverName : String
deriving DecidableEq

/-- Numeric value of the TLS 1.2 protocol version constant. -/
def versionTLS12 : Nat := 771

/-- A live upstream connection; its structure is irrelevant to the connector
logic. -/
abbrev Conn := Unit

/-- Split of a character list at every occurrence of the separator, the
splitting of the Go standard library for a one-character separator. -/
def splitChar (sep : Char) (l : List Char) : List (List Char) :=
  l.foldr (fun c acc =>
    match acc with
    | [] => [[c]]
    | g :: rest => if c = sep then [] :: g :: rest else (c :: g) :: rest) [[]]

/-- String form of the character split. -/
def splitCharS (sep : Char) (s : String) : List String :=
  (splitChar sep s.toList).map (fun l => String.mk l)

/-- The SplitHostPort call of the connector: a host and a port separated by
one colon; anything else (no colon, or several colons in this unbracketed
form) is a parse error, modelled as none. -/
def splitHostPort (hostport : String) : Option (String × String) :=
  match splitCharS ':' hostport with
  | [h, p] => some (h, p)
  | _ => none

/-- The dial request the connector builds from an upstream address: with
exactly one at-sign the part before it must parse as servername and port,
the server name goes into the TLS configuration and the dialed address is
the part after the at-sign joined with that port; otherwise the address is
dialed as given.  The minimum TLS version is always 1.2.  A parse failure is
an error before any dial. -/
def connectorDialRequest (upstream : String) : Except String (String × TLSConfig) :=
  match splitCharS '@' upstream with
  | [c0, c1] =>
    match splitHostPort c0 with
    | none => .error "failed to parse DNS-over-TLS upstream address"
    | some (servername, port) =>
      .ok (c1 ++ ":" ++ port, ⟨versionTLS12, servername⟩)
  | _ => .ok (upstream, ⟨versionTLS12, ""⟩)

/-- The connector closure: build the dial request and hand it to the dial
function; a failed dial (or parse) is reported as an error to the caller. -/
def connector (dial : String → TLSConfig → Except String Conn) (upstream : String) :
    Except String Conn :=
  match connectorDialRequest upstream with
  | .error e => .error e
  | .ok (addr, cfg) => dial addr cfg

/-- A dial function that always fails, used as a concrete test input. -/
def dialW : String → TLSConfig → Except String Conn := fun _ _ => .error "dial failed"

theorem fwdLoop_isSome (f : Nat → Option Msg) (r : Msg) (calls c : Nat) :
    fwdLoop f (some r) calls c = (some r, calls) := by
  unfold fwdLoop
  simp

theorem fwdLoop_none_step (f : Nat → Option Msg) (calls c : Nat) (h : c < 2) :
    fwdLoop f none calls c = fwdLoop f (f calls) (calls + 1) (c + 1) := by
  conv_lhs => unfold fwdLoop
  simp [h]

theorem fwdLoop_none_stop (f : Nat → Option Msg) (calls c : Nat) (h : ¬ c < 2) :
    fwdLoop f none calls c = (none, calls) := by
  unfold fwdLoop
  simp [h]

/-- C6: forwardAndCache calls forwardOnce at most 3 times, stopping at the
first non-null response; when every attempt is null it returns null with the
cache unchanged (after exactly 3 calls); the first non-null response is
inserted into the cache and returned; the call counts are 1, 2 or 3
according to which attempt first succeeds. -/
theorem forward_and_cache_retry_spec {σ : Type} (putc : σ → Msg → Msg → σ)
    (f : Nat → Option Msg) (st : σ) (q : Msg) :
    (forwardAndCache putc f st q).2.1 ≤ 3 ∧
    (forwardAndCache putc f st q).1 = firstSome [f 0, f 1, f 2] ∧
    ((forwardAndCache putc f st q).1 = none →
      (forwardAndCache putc f st q).2.2 = st ∧ (forwardAndCache putc f st q).2.1 = 3) ∧
    (∀ r : Msg, (forwardAndCache putc f st q).1 = some r →
      (forwardAndCache putc f st q).2.2 = putc st q r) ∧
    (f 0 ≠ none → (forwardAndCache putc f st q).2.1 = 1) ∧
    (f 0 = none → f 1 ≠ none → (forwardAndCache putc f st q).2.1 = 2) := by
  rcases h0 : f 0 with _ | r0
  · rcases h1 : f 1 with _ | r1
    · rcases h2 : f 2 with _ | r2
      · have hloop : fwdLoop f none 1 0 = (none, 3) := by
          rw [fwdLoop_none_step f 1 0 (by omega), h1,
            fwdLoop_none_step f 2 1 (by omega), h2, fwdLoop_none_stop f 3 2 (by omega)]
        simp [forwardAndCache, hloop, firstSome, h0, h1, h2]
      · have hloop : fwdLoop f none 1 0 = (some r2, 3) := by
          rw [fwdLoop_none_step f 1 0 (by omega), h1,
            fwdLoop_none_step f 2 1 (by omega), h2, fwdLoop_isSome]
        simp [forwardAndCache, hloop, firstSome, h0, h1, h2]
    · have hloop : fwdLoop f none 1 0 = (some r1, 2) := by
        rw [fwdLoop_none_step f 1 0 (by omega), h1, fwdLoop_isSome]
      simp [forwardAndCache, hloop, firstSome, h0, h1]
  · have hloop : fwdLoop f (some r0) 1 0 = (some r0, 1) := fwdLoop_isSome f r0 1 0
    simp [forwardAndCache, hloop, firstSome, h0]

/-- C7: evaluation of the receive loop at the failing input.  With two
pools, pool one failing (contributing two nil channel items) and pool two
delivering a response, the arrival order placing both nil items first is a
valid interleaving of the sends, yet the loop reads only two items and
returns null even though a pool delivered a non-null response. -/
theorem forward_once_drops_success :
    ([none, none, some vEx300] : List (Option Msg)).Perm (allSends [none, some vEx300]) ∧
    forwardOnceArrivals [none, some vEx300] [none, none, some vEx300] = none ∧
    some vEx300 ∈ ([none, some vEx300] : List (Option Msg)) := by
  refine ⟨?_, by decide, by decide⟩
  have h : allSends [none, some vEx300] = [none, none, some vEx300] := rfl
  rw [h]

/-- C8: evaluation of the clock at the failing input.  After construction
and the start of Run at a nonzero wall instant, a read of now before the
first ticker update returns the zero instant, not the recorded startup
time; only a tick makes now return a sampled instant. -/
theorem now_before_first_tick_is_zero :
    nowRead (runStart newServerClock 1700000000) = 0 ∧
    (runStart newServerClock 1700000000).startTime = 1700000000 ∧
    nowRead (runStart newServerClock 1700000000) ≠
      (runStart newServerClock 1700000000).startTime ∧
    nowRead (tickUpdate (runStart newServerClock 1700000000) 1700000001) = 1700000001 :=
  ⟨rfl, rfl, by decide, rfl⟩

/-- C9 counterexample: for the documented address form with a port after the
at-sign, the connector does not dial the endpoint given after the at-sign:
it appends the port taken from before the at-sign once more. -/
theorem connector_at_ip_port_not_endpoint :
    connectorDialRequest "dns.google:853@8.8.8.8:853" =
      .ok ("8.8.8.8:853:853", ⟨versionTLS12, "dns.google"⟩) ∧
    ("8.8.8.8:853:853" : String) ≠ "8.8.8.8:853" :=
  ⟨by rfl, by decide⟩

/-- C9 amended: for an upstream address with exactly one at-sign whose part
before it parses as servername and port, the connector dials the part after
the at-sign joined with that port, with the server name (hence SNI and
certificate verification) set to the servername and minimum TLS version
1.2; a failed dial is reported as an error to the caller. -/
theorem connector_dial_plan (dial : String → TLSConfig → Except String Conn)
    (upstream c0 c1 servername port : String)
    (hsplit : splitCharS '@' upstream = [c0, c1])
    (hhp : splitHostPort c0 = some (servername, port)) :
    connector dial upstream = dial (c1 ++ ":" ++ port) ⟨versionTLS12, servername⟩ ∧
    ∀ e, dial (c1 ++ ":" ++ port) ⟨versionTLS12, servername⟩ = Except.error e →
      connector dial upstream = Except.error e := by
  have hreq : connectorDialRequest upstream =
      .ok (c1 ++ ":" ++ port, ⟨versionTLS12, servername⟩) := by
    simp [connectorDialRequest, hsplit, hhp]
  constructor
  · simp [connector, hreq]
  · intro e he
    simp [connector, hreq, he]

/-- Witness for the amended C9 at a concrete input: the default upstream
address of the server and a dial function that always fails. -/
theorem connector_dial_plan_witness :
    connector dialW "one.one.one.one:853@1.1.1.1" =
      dialW ("1.1.1.1" ++ ":" ++ "853") ⟨versionTLS12, "one.one.one.one"⟩ ∧
    connector dialW "one.one.one.one:853@1.1.1.1" = Except.error "dial failed" := by
  have h := connector_dial_plan dialW "one.one.one.one:853@1.1.1.1" "one.one.one.one:853"
    "1.1.1.1" "one.one.one.one" "853" (by rfl) (by rfl)
  exact ⟨h.1, h.2 "dial failed" rfl⟩

end DoTForwarder
